import Mathlib

/-!
Verification of the `nomad-plugin-tests` orchestration core
(`src/nomad_plugin_tests/cli.py` and `parsing.py`).

The Python code is shallowly embedded: the external command runner
(`process.run_command`) is abstracted as an environment `Env` that maps a
package name and a command to a success flag and that records whether a
package's pipeline raises an unexpected error.  Pure functions
(`is_valid_github_url`, `get_git_url`, `split_packages`) are translated
directly; the stateful pipeline (`clone_and_checkout`,
`clone_and_test_package`, `run_tests_parallel`, `test_plugins`) is
translated to functions that also return the trace of attempted commands,
with Python exceptions modelled by `Except`.
-/

namespace NomadPluginTests

/-- Package descriptor, from `parsing.PluginPackage` (dataclass with all
optional fields defaulting to `None` / `[]`). -/
structure PluginPackage where
  name : String
  description : Option String := none
  version : Option String := none
  homepage : Option String := none
  documentation : Option String := none
  repository : Option String := none
  github_url : Option String := none
  commit_hash : Option String := none
  entry_points : List String := []
deriving DecidableEq, Repr

/-- Character-list prefix test, used to embed Python's `in` (substring)
operator executably. -/
def isPrefOf : List Char → List Char → Bool
  | [], _ => true
  | _ :: _, [] => false
  | a :: as, b :: bs => a == b && isPrefOf as bs

/-- Character-list substring test: does `pat` occur contiguously in the
second list?  Embeds Python's `pat in s`. -/
def containsSub (pat : List Char) : List Char → Bool
  | [] => isPrefOf pat []
  | b :: bs => isPrefOf pat (b :: bs) || containsSub pat bs

/-- Python's `pat in s` on strings. -/
def strContainsSub (s pat : String) : Bool :=
  containsSub pat.data s.data

/-- Python's `s.endswith(suf)`. -/
def strEndsWith (s suf : String) : Bool :=
  isPrefOf suf.data.reverse s.data.reverse

/-- Python truthiness of an optional string: `None` and `""` are falsy. -/
def truthy : Option String → Bool
  | none => false
  | some s => if s = "" then false else true

/-- `cli.is_valid_github_url`: the URL is not `None` and contains the
substring `"github.com"` anywhere. -/
def is_valid_github_url (url : Option String) : Bool :=
  match url with
  | none => false
  | some s => strContainsSub s ("github.com")

/-- The `.git`-suffix normalization applied to the `github_url` candidate
inside `cli.get_git_url`. -/
def normalizeGit (s : String) : String :=
  if strEndsWith s (".git") then s else s ++ ".git"

/-- The `github_url` branch of `cli.get_git_url`: if the field is truthy,
append `.git` when missing and keep the result only if it validates. -/
def ghCandidate (p : PluginPackage) : Option String :=
  match p.github_url with
  | none => none
  | some s =>
    if s = "" then none
    else
      let g := normalizeGit s
      if is_valid_github_url (some g) then some g else none

/-- `cli.get_git_url`: prefer the normalized `github_url`, then
`repository`, then `homepage`, each gated on `is_valid_github_url`;
`None` if no candidate survives. -/
def get_git_url (p : PluginPackage) : Option String :=
  let g0 := ghCandidate p
  let g1 :=
    if g0.isNone && truthy p.repository && is_valid_github_url p.repository then
      p.repository
    else g0
  if g1.isNone && truthy p.homepage && is_valid_github_url p.homepage then
    p.homepage
  else g1

/-- The external commands issued by the pipeline, per package. -/
inductive Cmd where
  | clone (url : String)
  | fetchCommit (h : String)
  | checkoutCommit (h : String)
  | fetchTags
  | checkoutTag (tag : String)
  | venv
  | installReqs
  | installDeps
  | pytest
deriving DecidableEq, Repr

/-- Abstract execution environment: `run` is the outcome of
`process.run_command` for a given package and command, and `raises`
marks packages whose pipeline hits an unexpected Python exception. -/
structure Env where
  run : String → Cmd → Bool
  raises : String → Bool

/-- `cli.checkout_tag`: one `git checkout <tag> -b <tag>-branch`
invocation; returns its success flag and the attempted command. -/
def checkout_tag (env : Env) (pkgName tag : String) : Bool × List Cmd :=
  (env.run pkgName (Cmd.checkoutTag tag), [Cmd.checkoutTag tag])

/-- The commit-hash block of `cli.clone_and_checkout` (lines 106-121):
entered only for a truthy `commit_hash`; `git fetch origin <hash>` then,
if that succeeded, `git checkout <hash>`. -/
def commitSection (env : Env) (p : PluginPackage) : Bool × List Cmd :=
  match p.commit_hash with
  | none => (false, [])
  | some h =>
    if h = "" then (false, [])
    else if env.run p.name (Cmd.fetchCommit h) then
      (env.run p.name (Cmd.checkoutCommit h), [Cmd.fetchCommit h, Cmd.checkoutCommit h])
    else (false, [Cmd.fetchCommit h])

/-- The tag-fallback block of `cli.clone_and_checkout` (lines 123-157):
`version_tag` is `version` unless it is `None` or contains `".dev"`;
if truthy, fetch all tags then try tag `v<version>` (skipped if it
equals `"v0.0.0"`) and on failure the bare `<version>` (skipped if it
equals `"0.0.0"`); otherwise a dev version or a missing version is
treated as success with no checkout (warning only). -/
def tagSection (env : Env) (p : PluginPackage) : Bool × List Cmd :=
  let version_tag : Option String :=
    match p.version with
    | some v => if strContainsSub v (".dev") then none else some v
    | none => none
  if truthy version_tag then
    let vt := version_tag.getD ""
    let tagV := "v" ++ vt
    if env.run p.name Cmd.fetchTags then
      let a1 := if tagV = "v0.0.0" then (false, []) else checkout_tag env p.name tagV
      if a1.1 then (true, Cmd.fetchTags :: a1.2)
      else
        let a2 := if vt = "0.0.0" then (false, []) else checkout_tag env p.name vt
        (a2.1, Cmd.fetchTags :: a1.2 ++ a2.2)
    else (false, [Cmd.fetchTags])
  else if truthy p.version && strContainsSub (p.version.getD "") (".dev") then
    (true, [])
  else
    (true, [])

/-- `cli.clone_and_checkout`: shallow clone, then the commit-hash block;
the tag block runs unless a truthy `commit_hash` was checked out
successfully.  Returns the final `checkout_successful` flag and the
trace of attempted git commands. -/
def clone_and_checkout (env : Env) (p : PluginPackage) : Bool × List Cmd :=
  let c := Cmd.clone (p.github_url.getD "")
  if env.run p.name c then
    let cs := commitSection env p
    if truthy p.commit_hash && cs.1 then (true, c :: cs.2)
    else
      let ts := tagSection env p
      (ts.1, c :: cs.2 ++ ts.2)
  else (false, [c])

/-- The body of `cli.clone_and_test_package` inside the `try` block:
early `return` (Python `None`) when `github_url` is `None` or when any
stage fails; `True`/`False` from the final pytest invocation. -/
def pipeline (env : Env) (p : PluginPackage) : Option Bool :=
  if p.github_url.isNone then none
  else if !(clone_and_checkout env p).1 then none
  else if !(env.run p.name Cmd.venv) then none
  else if !(env.run p.name Cmd.installReqs) then none
  else if !(env.run p.name Cmd.installDeps) then none
  else if env.run p.name Cmd.pytest then some true
  else some false

/-- Outcome of one worker invocation: the returned value (or a propagated
exception, `Except.error`), plus whether the `finally` clause removed and
closed the log handler (it always runs, on return and on exception). -/
structure PackageRun where
  result : Except Unit (Option Bool)
  logReleased : Bool
deriving Repr

/-- `cli.clone_and_test_package`: the `try` body computes `pipeline`;
there is no `except` clause, so an unexpected error is re-raised after
the `finally` clause releases the log handler. -/
def clone_and_test_package (env : Env) (p : PluginPackage) : PackageRun :=
  { result := if env.raises p.name then Except.error () else Except.ok (pipeline env p)
    logReleased := true }

/-- `multiprocessing.Pool.map` over `clone_and_test_package`: results are
collected in input order; if any worker raises, `map` re-raises in the
parent and no result list is produced. -/
def pool_map (env : Env) : List PluginPackage → Except Unit (List (Option Bool))
  | [] => Except.ok []
  | p :: ps =>
    match (clone_and_test_package env p).result with
    | Except.error e => Except.error e
    | Except.ok v =>
      match pool_map env ps with
      | Except.error e => Except.error e
      | Except.ok vs => Except.ok (v :: vs)

/-- The classification loop of `cli.run_tests_parallel` (lines 316-321):
`for i, package in enumerate(packages_to_test): if results[i]: ...` —
outcome `i` is paired with package `i` by position, and only a literal
`True` is truthy. -/
def aggregate : List PluginPackage → List (Option Bool) → List String × List String
  | p :: ps, r :: rs =>
    let rest := aggregate ps rs
    if r = some true then (p.name :: rest.1, rest.2)
    else (rest.1, p.name :: rest.2)
  | _, _ => ([], [])

/-- `cli.run_tests_parallel`: dispatch every package to the pool, then
classify by position; a raised worker exception propagates. -/
def run_tests_parallel (env : Env) (pkgs : List PluginPackage) :
    Except Unit (List String × List String) :=
  match pool_map env pkgs with
  | Except.error e => Except.error e
  | Except.ok results => Except.ok (aggregate pkgs results)

/-- `cli.split_packages`: chunk size `(len + total - 1) // total`, start
`(index - 1) * chunk`; the last node takes everything from `start`,
other nodes take `[start : start + chunk]` (Python slices clamp). -/
def split_packages (packages_to_test : List PluginPackage)
    (ci_node_total ci_node_index : Nat) : List PluginPackage :=
  let packages_per_node := (packages_to_test.length + ci_node_total - 1) / ci_node_total
  let start_index := (ci_node_index - 1) * packages_per_node
  if ci_node_index = ci_node_total then packages_to_test.drop start_index
  else (packages_to_test.drop start_index).take packages_per_node

/-- `cli.test_plugins`: filter out skipped names, take this node's slice,
exit 0 immediately (dispatching nothing) when the slice is empty,
otherwise run the tests and exit 1 exactly when the failed list is
non-empty.  Returns the exit status together with the names dispatched
to the pool; a worker exception propagates as `Except.error`. -/
def test_plugins (env : Env) (plugin_packages : List PluginPackage)
    (plugins_to_skip : List String) (ci_node_total ci_node_index : Nat) :
    Except Unit (Nat × List String) :=
  let packages_to_test :=
    plugin_packages.filter (fun p => !(plugins_to_skip.contains p.name))
  let packages_to_test := split_packages packages_to_test ci_node_total ci_node_index
  if packages_to_test.isEmpty then Except.ok (0, [])
  else
    match run_tests_parallel env packages_to_test with
    | Except.error e => Except.error e
    | Except.ok pf =>
      Except.ok ((if pf.2.isEmpty then 0 else 1), packages_to_test.map PluginPackage.name)

/-- The `else` branch of `parsing.get_plugin_packages` (lines 182-184):
a package without lock-file git info gets `github_url := get_git_url(p)`
and `commit_hash := None`. -/
def resolve_package (p : PluginPackage) : PluginPackage :=
  { p with github_url := get_git_url p, commit_hash := none }

/-- Environment in which every external command succeeds and no package
raises. -/
def envAllOk : Env :=
  { run := fun _ _ => true, raises := fun _ => false }

/-- Environment in which every command succeeds but the package named
`"pkgA"` hits an unexpected error mid-pipeline. -/
def envRaiseA : Env :=
  { run := fun _ _ => true, raises := fun n => n == "pkgA" }

/-- Environment in which every command succeeds except tag checkouts. -/
def envTagsFail : Env :=
  { run := fun _ c => match c with | Cmd.checkoutTag _ => false | _ => true
    raises := fun _ => false }

/-- Environment in which commit fetches fail and everything else
succeeds. -/
def envCommitFails : Env :=
  { run := fun _ c => match c with | Cmd.fetchCommit _ => false | _ => true
    raises := fun _ => false }

/-- A concrete package with a resolvable GitHub URL. -/
def pkgA : PluginPackage :=
  { name := "pkgA", github_url := some "https://github.com/a/a.git" }

/-- A second concrete package with a resolvable GitHub URL. -/
def pkgB : PluginPackage :=
  { name := "pkgB", github_url := some "https://github.com/b/b.git" }

/-- A package whose only candidate URL is a non-GitHub homepage. -/
def pkgNoHost : PluginPackage :=
  { name := "pkgH", homepage := some "https://example.com" }

/-- A package pinned to placeholder version `0.0.0`, no commit hash. -/
def pkg000 : PluginPackage :=
  { name := "p0", github_url := some "https://github.com/p/p.git", version := some "0.0.0" }

/-- A package whose version string is `v0.0.0`, no commit hash. -/
def pkgV000 : PluginPackage :=
  { name := "pv", github_url := some "https://github.com/p/p.git", version := some "v0.0.0" }

/-- A package with a dev version and no commit hash. -/
def pkgDev : PluginPackage :=
  { name := "dev", github_url := some "https://github.com/d/d.git"
    version := some "1.2.3.dev0" }

/-- A package with both a pinned commit and a release version. -/
def pkgC4 : PluginPackage :=
  { name := "c4", github_url := some "https://github.com/x/y.git"
    version := some "1.2.3", commit_hash := some "abc123" }

/-- A package whose `repository` URL contains `github.com` only in its
query string, on a non-GitHub host. -/
def pkgC10 : PluginPackage :=
  { name := "c10", repository := some "https://evil.example/x?q=github.com" }

/-- A package whose only candidate is a plain `repository` GitHub URL. -/
def pkgC5 : PluginPackage :=
  { name := "c5", repository := some "http://github.com/r/r" }

/-- Five bare packages for exercising the CI partitioner. -/
def demo5 : List PluginPackage :=
  [{ name := "a" }, { name := "b" }, { name := "c" }, { name := "d" }, { name := "e" }]

/-! Helper lemmas. -/

theorem isPrefOf_iff (p : List Char) : ∀ l : List Char, isPrefOf p l = true ↔ ∃ t, l = p ++ t := by
  induction p with
  | nil =>
    intro l
    simp [isPrefOf]
  | cons a as ih =>
    intro l
    cases l with
    | nil => simp [isPrefOf]
    | cons b bs =>
      simp only [isPrefOf, Bool.and_eq_true, beq_iff_eq, ih bs, List.cons_append,
        List.cons.injEq]
      constructor
      · rintro ⟨h1, t, h2⟩
        exact ⟨t, h1.symm, h2⟩
      · rintro ⟨t, h1, h2⟩
        exact ⟨h1.symm, t, h2⟩

theorem containsSub_iff (p : List Char) : ∀ l : List Char,
    containsSub p l = true ↔ ∃ s t, l = s ++ p ++ t := by
  intro l
  induction l with
  | nil =>
    cases p with
    | nil => simp [containsSub, isPrefOf]
    | cons a as => simp [containsSub, isPrefOf]
  | cons b bs ih =>
    simp only [containsSub, Bool.or_eq_true, isPrefOf_iff, ih]
    constructor
    · rintro (⟨t, h⟩ | ⟨s, t, h⟩)
      · exact ⟨[], t, by simpa using h⟩
      · exact ⟨b :: s, t, by simp [h]⟩
    · rintro ⟨s, t, h⟩
      cases s with
      | nil =>
        exact Or.inl ⟨t, by simpa using h⟩
      | cons c cs =>
        simp only [List.cons_append, List.cons.injEq] at h
        exact Or.inr ⟨cs, t, h.2⟩

theorem ne_empty_of_contains_dev (v : String) (h : strContainsSub v (".dev") = true) :
    v ≠ "" := by
  intro hv
  subst hv
  exact absurd h (by decide)

theorem flatten_chunks (l : List PluginPackage) (c : Nat) :
    ∀ n : Nat,
      ((List.range n).map (fun k => (l.drop (k * c)).take c)).flatten ++ l.drop (n * c) = l := by
  intro n
  induction n with
  | zero => simp
  | succ m ih =>
    rw [List.range_succ, List.map_append, List.flatten_append]
    simp only [List.map_cons, List.map_nil, List.flatten_cons, List.flatten_nil,
      List.append_nil]
    rw [List.append_assoc]
    have h2 : (m + 1) * c = m * c + c := Nat.succ_mul m c
    rw [h2, ← List.drop_drop, List.take_append_drop]
    exact ih

/-- Claim C3: for `1 ≤ index ≤ total`, `split_packages` computes chunk
size `⌈len/total⌉ = (len + total - 1) / total` and start
`(index - 1) * chunk`; every non-last node receives the slice
`[start, start + chunk)`, the last node everything from `start`; the
concatenation of the slices over all indices is exactly the input list
(full coverage, no duplicates, no omissions). -/
theorem split_packages_partition (l : List PluginPackage) (t : Nat) (ht : 1 ≤ t) :
    (∀ i, 1 ≤ i → i < t →
      split_packages l t i =
        (l.drop ((i - 1) * ((l.length + t - 1) / t))).take ((l.length + t - 1) / t)) ∧
    split_packages l t t = l.drop ((t - 1) * ((l.length + t - 1) / t)) ∧
    ((List.range t).map (fun k => split_packages l t (k + 1))).flatten = l := by
  refine ⟨?_, ?_, ?_⟩
  · intro i h1 h2
    have hne : i ≠ t := Nat.ne_of_lt h2
    simp [split_packages, hne]
  · simp [split_packages]
  · obtain ⟨n, rfl⟩ : ∃ n, t = n + 1 := ⟨t - 1, by omega⟩
    rw [List.range_succ, List.map_append, List.flatten_append]
    have hmap : (List.range n).map (fun k => split_packages l (n + 1) (k + 1)) =
        (List.range n).map
          (fun k => (l.drop (k * ((l.length + (n + 1) - 1) / (n + 1)))).take
            ((l.length + (n + 1) - 1) / (n + 1))) := by
      apply List.map_congr_left
      intro k hk
      have hk2 : k < n := List.mem_range.mp hk
      have hne : k + 1 ≠ n + 1 := by omega
      simp [split_packages, hne]
    rw [hmap]
    simp only [List.map_cons, List.map_nil, List.flatten_cons, List.flatten_nil,
      List.append_nil]
    have hlast : split_packages l (n + 1) (n + 1) =
        l.drop (n * ((l.length + (n + 1) - 1) / (n + 1))) := by
      simp [split_packages]
    rw [hlast]
    exact flatten_chunks l ((l.length + (n + 1) - 1) / (n + 1)) n

/-- Witness for C3 at five packages over two nodes. -/
theorem split_packages_partition_witness :
    ((List.range 2).map (fun k => split_packages demo5 2 (k + 1))).flatten = demo5 :=
  (split_packages_partition demo5 2 (by decide)).2.2

theorem isNone_false_of_truthy (o : Option String) (h : truthy o = true) :
    o.isNone = false := by
  cases o with
  | none => simp [truthy] at h
  | some s => rfl

/-- Claim C5: the clone URL is selected with priority `github_url`
(normalized with a `.git` suffix and validated, else discarded), then
`repository`, then `homepage`, each under `is_valid_github_url`; the
concrete `github_url = "https://github.com/org/repo"` resolves to
`"https://github.com/org/repo.git"`, and when no candidate validates the
resolver returns `none`. -/
theorem get_git_url_priority (p : PluginPackage) :
    (∀ s, p.github_url = some s → s ≠ "" →
        is_valid_github_url (some (normalizeGit s)) = true →
        get_git_url p = some (normalizeGit s)) ∧
    (ghCandidate p = none → truthy p.repository = true →
        is_valid_github_url p.repository = true → get_git_url p = p.repository) ∧
    (ghCandidate p = none →
        (truthy p.repository && is_valid_github_url p.repository) = false →
        truthy p.homepage = true → is_valid_github_url p.homepage = true →
        get_git_url p = p.homepage) ∧
    (ghCandidate p = none →
        (truthy p.repository && is_valid_github_url p.repository) = false →
        (truthy p.homepage && is_valid_github_url p.homepage) = false →
        get_git_url p = none) ∧
    get_git_url { name := "org-repo", github_url := some ("https://github.com/org/repo") } =
      some ("https://github.com/org/repo.git") := by
  refine ⟨?_, ?_, ?_, ?_, by decide⟩
  · intro s h1 h2 h3
    have hg : ghCandidate p = some (normalizeGit s) := by
      simp [ghCandidate, h1, h2, h3]
    simp [get_git_url, hg]
  · intro hg0 ht hv
    simp [get_git_url, hg0, ht, hv, isNone_false_of_truthy _ ht]
  · intro hg0 hrf ht hv
    simp [get_git_url, hg0, hrf, ht, hv, isNone_false_of_truthy _ ht]
  · intro hg0 hrf hhf
    simp [get_git_url, hg0, hrf, hhf]

/-- Witness for C5: a package whose only candidate is its `repository`
field resolves to that URL. -/
theorem get_git_url_priority_witness : get_git_url pkgC5 = some ("http://github.com/r/r") :=
  (get_git_url_priority pkgC5).2.1 (by decide) (by decide) (by decide)

/-- Claim C10: `is_valid_github_url` accepts exactly the non-`None` URLs
containing the substring `"github.com"` anywhere — neither scheme nor
host is inspected — and a URL carrying `"github.com"` only in its query
string on a foreign host is selected as the clone URL by
`get_git_url`. -/
theorem is_valid_github_url_substring (u : String) :
    (is_valid_github_url (some u) = true ↔
      ∃ pre suf, u.data = pre ++ ("github.com").data ++ suf) ∧
    is_valid_github_url none = false ∧
    get_git_url pkgC10 = some ("https://evil.example/x?q=github.com") := by
  refine ⟨?_, rfl, by decide⟩
  simpa [is_valid_github_url, strContainsSub] using
    containsSub_iff (("github.com").data) u.data

/-- Claim C7: a descriptor whose version contains a `".dev"` marker and
that has no commit hash skips checkout entirely — the trace after a
successful clone is just the clone itself, with no tag fetch or tag
checkout — and the stage reports success. -/
theorem dev_version_skips_checkout (env : Env) (p : PluginPackage) (v : String)
    (h1 : p.commit_hash = none) (h2 : p.version = some v)
    (h3 : strContainsSub v (".dev") = true)
    (h4 : env.run p.name (Cmd.clone (p.github_url.getD "")) = true) :
    clone_and_checkout env p = (true, [Cmd.clone (p.github_url.getD "")]) := by
  have hv : v ≠ "" := ne_empty_of_contains_dev v h3
  simp [clone_and_checkout, h4, commitSection, h1, truthy, tagSection, h2, h3, hv]

/-- Witness for C7 at version `1.2.3.dev0`. -/
theorem dev_version_skips_checkout_witness :
    clone_and_checkout envAllOk pkgDev = (true, [Cmd.clone ("https://github.com/d/d.git")]) :=
  dev_version_skips_checkout envAllOk pkgDev ("1.2.3.dev0") rfl rfl (by decide) rfl

/-- Counterexample to C6: with every tag checkout failing and clone and
fetch succeeding, version `"0.0.0"` attempts no tag checkout but the
stage returns `false` (not success), and version `"v0.0.0"` does attempt
a tag checkout (of tag `"vv0.0.0"`). -/
theorem placeholder_version_counterexample :
    (clone_and_checkout envTagsFail pkg000).1 = false ∧
    Cmd.checkoutTag ("vv0.0.0") ∈ (clone_and_checkout envTagsFail pkgV000).2 := by
  decide

/-- Claim C6 (amended): for version exactly `"0.0.0"` and no commit
hash, after a successful clone no tag checkout is attempted, but the
checkout stage returns failure rather than success; for version
`"v0.0.0"` tag checkouts are attempted — tag `"vv0.0.0"` first and, if
it fails, tag `"v0.0.0"`. -/
theorem placeholder_version_checkout (env : Env) (p q : PluginPackage)
    (hp1 : p.commit_hash = none) (hp2 : p.version = some ("0.0.0"))
    (hpc : env.run p.name (Cmd.clone (p.github_url.getD "")) = true)
    (hq1 : q.commit_hash = none) (hq2 : q.version = some ("v0.0.0"))
    (hqc : env.run q.name (Cmd.clone (q.github_url.getD "")) = true)
    (hqf : env.run q.name Cmd.fetchTags = true) :
    ((clone_and_checkout env p).1 = false ∧
      ∀ t, Cmd.checkoutTag t ∉ (clone_and_checkout env p).2) ∧
    (Cmd.checkoutTag ("vv0.0.0") ∈ (clone_and_checkout env q).2 ∧
      (env.run q.name (Cmd.checkoutTag ("vv0.0.0")) = false →
        Cmd.checkoutTag ("v0.0.0") ∈ (clone_and_checkout env q).2)) := by
  have hd0 : strContainsSub ("0.0.0") (".dev") = false := by decide
  have hdv : strContainsSub ("v0.0.0") (".dev") = false := by decide
  have ha : ("v" : String) ++ "0.0.0" = "v0.0.0" := by decide
  have hb : ("v" : String) ++ "v0.0.0" = "vv0.0.0" := by decide
  have hne1 : ("0.0.0" : String) ≠ "" := by decide
  have hne2 : ("v0.0.0" : String) ≠ "" := by decide
  have hne3 : ("vv0.0.0" : String) ≠ "v0.0.0" := by decide
  have hne4 : ("v0.0.0" : String) ≠ "0.0.0" := by decide
  constructor
  · cases hft : env.run p.name Cmd.fetchTags <;>
      simp [clone_and_checkout, hpc, commitSection, hp1, truthy, tagSection, hp2,
        hd0, ha, hft, hne1, checkout_tag]
  · cases hco : env.run q.name (Cmd.checkoutTag ("vv0.0.0")) <;>
      simp [clone_and_checkout, hqc, commitSection, hq1, truthy, tagSection, hq2,
        hdv, hb, hqf, hco, hne2, hne3, hne4, checkout_tag]

/-- Witness for C6 (amended) in the concrete failing-tags environment. -/
theorem placeholder_version_checkout_witness :
    (clone_and_checkout envTagsFail pkg000).1 = false ∧
    Cmd.checkoutTag ("v0.0.0") ∈ (clone_and_checkout envTagsFail pkgV000).2 := by
  have h := placeholder_version_checkout envTagsFail pkg000 pkgV000
    rfl rfl rfl rfl rfl rfl rfl
  exact ⟨h.1.1, h.2.2 rfl⟩

/-- Claim C4: with a (truthy) commit hash and a successful clone, the
commit fetch is attempted in a prefix of the trace that contains no tag
checkout; and when the commit checkout fails, the tag fallback still
runs — the stage result is the tag section's result with its commands
appended, and for a usable version with a successful tags fetch the
`v<version>` tag checkout is actually attempted. -/
theorem commit_checkout_first_tag_fallback (env : Env) (p : PluginPackage) (h : String)
    (hc : p.commit_hash = some h) (hne : h ≠ "")
    (hclone : env.run p.name (Cmd.clone (p.github_url.getD "")) = true) :
    (∃ pre post, (clone_and_checkout env p).2 = pre ++ post ∧
        Cmd.fetchCommit h ∈ pre ∧ ∀ t, Cmd.checkoutTag t ∉ pre) ∧
    ((commitSection env p).1 = false →
      clone_and_checkout env p =
        ((tagSection env p).1,
          Cmd.clone (p.github_url.getD "") :: (commitSection env p).2 ++ (tagSection env p).2) ∧
      ∀ v, p.version = some v → strContainsSub v (".dev") = false → v ≠ "" →
        env.run p.name Cmd.fetchTags = true → ("v" ++ v : String) ≠ "v0.0.0" →
        Cmd.checkoutTag ("v" ++ v) ∈ (clone_and_checkout env p).2) := by
  have htr : truthy p.commit_hash = true := by simp [truthy, hc, hne]
  have hmem : Cmd.fetchCommit h ∈ (commitSection env p).2 ∧
      ∀ t, Cmd.checkoutTag t ∉ (commitSection env p).2 := by
    cases hf : env.run p.name (Cmd.fetchCommit h) <;>
      simp [commitSection, hc, hne, hf]
  by_cases hcs : (commitSection env p).1 = true
  · have hres : clone_and_checkout env p =
        (true, Cmd.clone (p.github_url.getD "") :: (commitSection env p).2) := by
      simp [clone_and_checkout, hclone, htr, hcs]
    constructor
    · refine ⟨Cmd.clone (p.github_url.getD "") :: (commitSection env p).2, [],
        by simp [hres], ?_, ?_⟩
      · exact List.mem_cons_of_mem _ hmem.1
      · intro t
        simp only [List.mem_cons]
        rintro (hx | hx)
        · cases hx
        · exact hmem.2 t hx
    · intro hcontra
      rw [hcontra] at hcs
      cases hcs
  · have hcs2 : (commitSection env p).1 = false := by
      simpa using hcs
    have hres : clone_and_checkout env p =
        ((tagSection env p).1,
          Cmd.clone (p.github_url.getD "") :: (commitSection env p).2 ++ (tagSection env p).2) := by
      simp [clone_and_checkout, hclone, htr, hcs2]
    constructor
    · refine ⟨Cmd.clone (p.github_url.getD "") :: (commitSection env p).2,
        (tagSection env p).2, by simp [hres], ?_, ?_⟩
      · exact List.mem_cons_of_mem _ hmem.1
      · intro t
        simp only [List.mem_cons]
        rintro (hx | hx)
        · cases hx
        · exact hmem.2 t hx
    · intro _
      refine ⟨hres, ?_⟩
      intro v hv hdev hvne hft hV
      have hv0 : v ≠ "0.0.0" := by
        intro he
        subst he
        exact hV (by decide)
      have hts : Cmd.checkoutTag ("v" ++ v) ∈ (tagSection env p).2 := by
        cases ha1 : env.run p.name (Cmd.checkoutTag ("v" ++ v)) <;>
          simp [tagSection, hv, hdev, truthy, hvne, hft, checkout_tag, hV, hv0, ha1]
      rw [hres]
      simp only [List.mem_cons, List.mem_append]
      tauto

/-- Witness for C4: commit fetch fails, so the `v1.2.3` tag checkout is
attempted. -/
theorem commit_checkout_first_tag_fallback_witness :
    Cmd.checkoutTag ("v1.2.3") ∈ (clone_and_checkout envCommitFails pkgC4).2 := by
  have h := commit_checkout_first_tag_fallback envCommitFails pkgC4 ("abc123")
    rfl (by decide) rfl
  exact (h.2 (by decide)).2 ("1.2.3") rfl (by decide) (by decide) rfl (by decide)

theorem pool_map_ok (env : Env) (pkgs : List PluginPackage) :
    (∀ p ∈ pkgs, env.raises p.name = false) →
    pool_map env pkgs = Except.ok (pkgs.map (pipeline env)) := by
  induction pkgs with
  | nil => intro _; rfl
  | cons q qs ih =>
    intro h
    have hq := h q (List.mem_cons_self q qs)
    have hqs := ih (fun p hp => h p (List.mem_cons_of_mem q hp))
    simp [pool_map, clone_and_test_package, hq, hqs]

theorem pool_map_error (env : Env) (pkgs : List PluginPackage) :
    (∃ p ∈ pkgs, env.raises p.name = true) → pool_map env pkgs = Except.error () := by
  induction pkgs with
  | nil =>
    rintro ⟨p, hp, _⟩
    simp at hp
  | cons q qs ih =>
    rintro ⟨p, hp, hr⟩
    cases hq : env.raises q.name with
    | true => simp [pool_map, clone_and_test_package, hq]
    | false =>
      have hqs : pool_map env qs = Except.error () := by
        apply ih
        rcases List.mem_cons.mp hp with h1 | h1
        · subst h1
          rw [hq] at hr
          cases hr
        · exact ⟨p, h1, hr⟩
      simp [pool_map, clone_and_test_package, hq, hqs]

theorem aggregate_map_pipeline (env : Env) (pkgs : List PluginPackage) :
    aggregate pkgs (pkgs.map (pipeline env)) =
      ((pkgs.filter (fun p => decide (pipeline env p = some true))).map PluginPackage.name,
       (pkgs.filter (fun p => !(decide (pipeline env p = some true)))).map
         PluginPackage.name) := by
  induction pkgs with
  | nil => rfl
  | cons q qs ih =>
    by_cases hq : pipeline env q = some true <;>
      simp [aggregate, ih, hq, List.filter_cons]

/-- Counterexample to C1: one package raising an unexpected error makes
the whole parallel map re-raise — no passed/failed lists are produced,
so the other package's outcome is not reported and the package is never
classified as failed. -/
theorem unexpected_error_counterexample :
    run_tests_parallel envRaiseA [pkgA, pkgB] = Except.error () := rfl

/-- Claim C1 (amended): when a package's pipeline raises an unexpected
error, the `finally` clause still releases its log handler, but the
error is not caught at the package boundary: it propagates out of the
worker and through the pool's `map`, so the whole run aborts and no
package's outcome is reported. -/
theorem unexpected_error_propagates (env : Env) (p : PluginPackage)
    (pkgs : List PluginPackage) :
    (clone_and_test_package env p).logReleased = true ∧
    (env.raises p.name = true → (clone_and_test_package env p).result = Except.error ()) ∧
    (p ∈ pkgs → env.raises p.name = true →
      run_tests_parallel env pkgs = Except.error ()) := by
  refine ⟨rfl, fun hr => by simp [clone_and_test_package, hr], fun hmem hr => ?_⟩
  have h := pool_map_error env pkgs ⟨p, hmem, hr⟩
  simp [run_tests_parallel, h]

/-- Witness for C1 (amended) with a concrete raising environment. -/
theorem unexpected_error_propagates_witness :
    (clone_and_test_package envRaiseA pkgA).logReleased = true ∧
    (clone_and_test_package envRaiseA pkgA).result = Except.error () ∧
    run_tests_parallel envRaiseA [pkgA, pkgB] = Except.error () := by
  have h := unexpected_error_propagates envRaiseA pkgA [pkgA, pkgB]
  exact ⟨h.1, h.2.1 (by decide), h.2.2 (List.mem_cons_self pkgA [pkgB]) (by decide)⟩

/-- Counterexample to C2: a package whose only candidate URL is a
non-GitHub homepage resolves to no clone URL, and a run containing only
that package — in which every external command would succeed — exits
with status 1: the skip alone makes the run failing. -/
theorem unresolvable_fails_run_counterexample :
    get_git_url pkgNoHost = none ∧
    test_plugins envAllOk [resolve_package pkgNoHost] [] 1 1 =
      Except.ok (1, ["pkgH"]) := by
  exact ⟨by decide, rfl⟩

/-- Claim C2 (amended): a package none of whose candidate URLs validates
is skipped (its runner logs a warning and returns early with Python
`None`), but that falsy outcome is counted into the failed list by the
aggregator, so the package does contribute to a failure exit status. -/
theorem unresolvable_counted_failed (env : Env) (p : PluginPackage)
    (pkgs : List PluginPackage)
    (hg : p.github_url = none) (hr : env.raises p.name = false) :
    (clone_and_test_package env p).result = Except.ok none ∧
    (p ∈ pkgs → (∀ q ∈ pkgs, env.raises q.name = false) →
      ∃ passed failed,
        run_tests_parallel env pkgs = Except.ok (passed, failed) ∧ p.name ∈ failed) := by
  have hpipe : pipeline env p = none := by simp [pipeline, hg]
  refine ⟨by simp [clone_and_test_package, hr, hpipe], fun hmem hall => ?_⟩
  refine ⟨(pkgs.filter (fun q => decide (pipeline env q = some true))).map PluginPackage.name,
    (pkgs.filter (fun q => !(decide (pipeline env q = some true)))).map PluginPackage.name,
    ?_, ?_⟩
  · simp [run_tests_parallel, pool_map_ok env pkgs hall, aggregate_map_pipeline]
  · exact List.mem_map.mpr ⟨p, List.mem_filter.mpr ⟨hmem, by simp [hpipe]⟩, rfl⟩

/-- Witness for C2 (amended) at the concrete homepage-only package. -/
theorem unresolvable_counted_failed_witness :
    (clone_and_test_package envAllOk (resolve_package pkgNoHost)).result = Except.ok none ∧
    ∃ passed failed,
      run_tests_parallel envAllOk [resolve_package pkgNoHost] =
        Except.ok (passed, failed) ∧ (resolve_package pkgNoHost).name ∈ failed := by
  have h := unresolvable_counted_failed envAllOk (resolve_package pkgNoHost)
    [resolve_package pkgNoHost] (by decide) rfl
  exact ⟨h.1, h.2 (List.mem_cons_self _ _) (fun q _ => rfl)⟩

/-- Claim C8: the run exits 0 exactly when the failed list is empty —
an empty post-skip post-partition candidate set exits 0 immediately with
nothing dispatched, and otherwise the exit status is 1 precisely for a
non-empty failed list. -/
theorem test_plugins_exit_status (env : Env) (pp : List PluginPackage)
    (skip : List String) (t i : Nat) :
    (split_packages (pp.filter (fun p => !(skip.contains p.name))) t i = [] →
      test_plugins env pp skip t i = Except.ok (0, [])) ∧
    (∀ passed failed,
      run_tests_parallel env
          (split_packages (pp.filter (fun p => !(skip.contains p.name))) t i) =
        Except.ok (passed, failed) →
      split_packages (pp.filter (fun p => !(skip.contains p.name))) t i ≠ [] →
      test_plugins env pp skip t i =
        Except.ok ((if failed.isEmpty then 0 else 1),
          (split_packages (pp.filter (fun p => !(skip.contains p.name))) t i).map
            PluginPackage.name) ∧
      ((if failed.isEmpty then 0 else 1) = 0 ↔ failed = [])) := by
  constructor
  · intro h
    simp only [test_plugins, h]
    rfl
  · intro passed failed hrun hne
    have hie : (split_packages (pp.filter (fun p => !(skip.contains p.name))) t i).isEmpty
        = false := by
      cases hsp : split_packages (pp.filter (fun p => !(skip.contains p.name))) t i with
      | nil => exact absurd hsp hne
      | cons a as => rfl
    constructor
    · simp only [test_plugins, hie, hrun]
      rfl
    · cases failed <;> simp

/-- Witness for C8: the empty candidate set exits 0 with nothing
dispatched, and an all-passing single-package run exits 0. -/
theorem test_plugins_exit_status_witness :
    test_plugins envAllOk [] [] 1 1 = Except.ok (0, []) ∧
    test_plugins envAllOk [pkgA] [] 1 1 = Except.ok (0, ["pkgA"]) := by
  constructor
  · exact (test_plugins_exit_status envAllOk [] [] 1 1).1 rfl
  · have h := ((test_plugins_exit_status envAllOk [pkgA] [] 1 1).2 ["pkgA"] [] rfl
      (by decide)).1
    exact h.trans rfl

/-- Counterexample to C9: the aggregator pairs outcomes with packages by
position — permuting the collected result list (as an out-of-order
completion would, were collection not order-preserving) changes which
package is classified as passed. -/
theorem aggregation_by_position_counterexample :
    aggregate [pkgA, pkgB] [some true, none] = (["pkgA"], ["pkgB"]) ∧
    aggregate [pkgA, pkgB] [none, some true] = (["pkgB"], ["pkgA"]) ∧
    (["pkgA"], ["pkgB"]) ≠ ((["pkgB"], ["pkgA"]) : List String × List String) := by
  decide

/-- Claim C9 (amended): the aggregator associates outcomes to packages
by position in the collected results, and because the pool's `map`
returns results in input order regardless of completion order, every
package in a non-raising run is classified according to its own
pipeline outcome. -/
theorem aggregation_positional_correct (env : Env) (pkgs : List PluginPackage)
    (h : ∀ p ∈ pkgs, env.raises p.name = false) :
    run_tests_parallel env pkgs =
      Except.ok
        ((pkgs.filter (fun p => decide (pipeline env p = some true))).map PluginPackage.name,
         (pkgs.filter (fun p => !(decide (pipeline env p = some true)))).map
           PluginPackage.name) := by
  simp [run_tests_parallel, pool_map_ok env pkgs h, aggregate_map_pipeline]

/-- Witness for C9 (amended): a one-package all-ok run is classified
passed. -/
theorem aggregation_positional_correct_witness :
    run_tests_parallel envAllOk [pkgA] = Except.ok (["pkgA"], []) := by
  have h := aggregation_positional_correct envAllOk [pkgA] (fun p _ => rfl)
  exact h.trans rfl

end NomadPluginTests
